import Mathlib

/-!
Verification of the Carlini-Wagner attack implementation (`art/attacks/carlini.py`).

This file gives a shallow embedding of the numeric core of the two attack
classes `CarliniL2Method` and `CarliniLInfMethod` and proves (or refutes)
the specification claims about them.

Conventions of the embedding:
* Python floats are modelled as ideal real numbers (`ℝ`) where the claims are
  about the analytic transforms (`_original_to_tanh` / `_tanh_to_original`),
  and as rationals (`ℚ`) for the state-machine parts (binary search over the
  trade-off constant, line search, best-result bookkeeping), which only use
  field operations and comparisons.
* The external classifier oracle (`self._predict`, `self._class_gradient`) is
  modelled by abstract function parameters: a `margin` function giving the
  hinge loss of a candidate and, where needed, a `toOrig` function standing
  for `_tanh_to_original` composed with whatever point the gradient direction
  reaches.  The attack treats the classifier as a black box, so any function
  is a legal oracle.
* All numpy code is vectorized over the sample axis with boolean masks, but
  every per-sample slot evolves independently of the others (masked updates
  only touch the masked sample), so the state machines are embedded for a
  single sample.
-/

namespace Carlini

/-! Space transform: (`_original_to_tanh`, `_tanh_to_original`)

`np.clip(a, lo, hi)` is `min (max a lo) hi`.  `np.arctanh` is the real inverse
hyperbolic tangent `y ↦ log ((1+y)/(1-y)) / 2`.  The smoothing constant is
`self._tanh_smoother = 0.999999` (line 94 / line 522). -/

noncomputable def npClip (a lo hi : ℝ) : ℝ := min (max a lo) hi

def tanhSmoother : ℝ := 0.999999

/-- Real inverse hyperbolic tangent, the mathematical content of `np.arctanh`. -/
noncomputable def arctanh (y : ℝ) : ℝ := Real.log ((1 + y) / (1 - y)) / 2

/-- Transcription of `CarliniL2Method._original_to_tanh` (lines 176-196); `CarliniLInfMethod`
has the identical definition (lines 583-599). -/
noncomputable def originalToTanh (xOriginal clipMin clipMax : ℝ) : ℝ :=
  arctanh ((((npClip xOriginal clipMin clipMax - clipMin) / (clipMax - clipMin)) * 2 - 1)
    * tanhSmoother)

/-- Transcription of `CarliniL2Method._tanh_to_original` (lines 198-212); `CarliniLInfMethod`
has the identical definition (lines 601-615). -/
noncomputable def tanhToOriginal (xTanh clipMin clipMax : ℝ) : ℝ :=
  (Real.tanh xTanh / tanhSmoother + 1) / 2 * (clipMax - clipMin) + clipMin

theorem tanh_exp_form (x : ℝ) :
    Real.tanh x = (Real.exp (2 * x) - 1) / (Real.exp (2 * x) + 1) := by
  rw [Real.tanh_eq_sinh_div_cosh, Real.sinh_eq, Real.cosh_eq]
  have h1 : Real.exp x ≠ 0 := Real.exp_ne_zero x
  have h4 : Real.exp (2 * x) = Real.exp x * Real.exp x := by
    rw [two_mul, Real.exp_add]
  rw [h4, Real.exp_neg]
  have h2 : (0:ℝ) < Real.exp x + (Real.exp x)⁻¹ := by positivity
  have h3 : (0:ℝ) < Real.exp x * Real.exp x + 1 := by positivity
  field_simp

theorem tanh_lt_one (x : ℝ) : Real.tanh x < 1 := by
  rw [tanh_exp_form]
  have h : (0:ℝ) < Real.exp (2 * x) + 1 := by positivity
  rw [div_lt_one h]
  linarith

theorem neg_one_lt_tanh (x : ℝ) : -1 < Real.tanh x := by
  rw [tanh_exp_form]
  have h : (0:ℝ) < Real.exp (2 * x) + 1 := by positivity
  rw [lt_div_iff₀ h]
  have := Real.exp_pos (2 * x)
  linarith

theorem tanh_arctanh {y : ℝ} (h1 : -1 < y) (h2 : y < 1) : Real.tanh (arctanh y) = y := by
  have hy1 : (0:ℝ) < 1 + y := by linarith
  have hy2 : (0:ℝ) < 1 - y := by linarith
  have hr : (0:ℝ) < (1 + y) / (1 - y) := div_pos hy1 hy2
  rw [tanh_exp_form, arctanh]
  rw [show 2 * (Real.log ((1 + y) / (1 - y)) / 2) = Real.log ((1 + y) / (1 - y)) by ring]
  rw [Real.exp_log hr]
  rw [div_eq_iff (by positivity)]
  field_simp
  ring

/-- The round trip is exact (in real arithmetic) strictly inside the box:
clipping is the identity there, the smoothed argument stays strictly inside
`(-1, 1)`, and `tanh` inverts `arctanh`. -/
theorem roundtrip_exact (clipMin clipMax x : ℝ) (h1 : clipMin < x) (h2 : x < clipMax) :
    tanhToOriginal (originalToTanh x clipMin clipMax) clipMin clipMax = x := by
  have hlohi : clipMin < clipMax := lt_trans h1 h2
  have hwid : (0:ℝ) < clipMax - clipMin := by linarith
  have hclip : npClip x clipMin clipMax = x := by
    rw [npClip, max_eq_left h1.le, min_eq_left h2.le]
  have hs0 : (0:ℝ) < tanhSmoother := by norm_num [tanhSmoother]
  have hs1 : tanhSmoother < 1 := by norm_num [tanhSmoother]
  set r : ℝ := ((x - clipMin) / (clipMax - clipMin)) * 2 - 1 with hr
  have hfrac0 : (0:ℝ) < (x - clipMin) / (clipMax - clipMin) :=
    div_pos (by linarith) hwid
  have hfrac1 : (x - clipMin) / (clipMax - clipMin) < 1 := by
    rw [div_lt_one hwid]; linarith
  have hrlo : -1 < r := by rw [hr]; nlinarith
  have hrhi : r < 1 := by rw [hr]; nlinarith
  have harglo : -1 < r * tanhSmoother := by nlinarith
  have harghi : r * tanhSmoother < 1 := by nlinarith
  rw [originalToTanh, hclip, tanhToOriginal, ← hr, tanh_arctanh harglo harghi]
  have hsne : tanhSmoother ≠ 0 := ne_of_gt hs0
  have hw : (r * tanhSmoother / tanhSmoother + 1) / 2 = (x - clipMin) / (clipMax - clipMin) := by
    rw [mul_div_assoc, div_self hsne, mul_one, hr]; ring
  rw [hw, div_mul_cancel₀ _ (ne_of_gt hwid)]
  ring

/-- Claim C5 (confirmed).  For every `x` in `[clipMin, clipMax]` strictly inside
the boundary, transforming to tanh space (`_original_to_tanh`) and back
(`_tanh_to_original`) returns a value within `1e-5` of `x`.  In the real
semantics of the embedding the round trip is exact, so the `1e-5` float
tolerance holds a fortiori. -/
theorem transform_roundtrip (clipMin clipMax x : ℝ) (h1 : clipMin < x) (h2 : x < clipMax) :
    |tanhToOriginal (originalToTanh x clipMin clipMax) clipMin clipMax - x| ≤ 1 / 100000 := by
  rw [roundtrip_exact clipMin clipMax x h1 h2, sub_self, abs_zero]
  norm_num

/-- Witness for `transform_roundtrip`: concrete box `[0, 1]`, interior point `1/2`. -/
theorem transform_roundtrip_witness :
    (0:ℝ) < 1/2 ∧ (1/2:ℝ) < 1 ∧
      |tanhToOriginal (originalToTanh (1/2) 0 1) 0 1 - 1/2| ≤ 1 / 100000 :=
  ⟨by norm_num, by norm_num,
    transform_roundtrip 0 1 (1/2) (by norm_num) (by norm_num)⟩

/-- Analytic fact behind the box-escape counterexample: `exp 16 > 1999999`. -/
theorem exp_sixteen_large : (1999999:ℝ) < Real.exp 16 := by
  have h1 : (2.5:ℝ) < Real.exp 1 := lt_trans (by norm_num) Real.exp_one_gt_d9
  have h2 : Real.exp (((16:ℕ):ℝ) * 1) = Real.exp 1 ^ (16:ℕ) := Real.exp_nat_mul 1 16
  have h3 : Real.exp 16 = Real.exp 1 ^ (16:ℕ) := by
    rw [← h2]; norm_num
  have h4 : (2.5:ℝ) ^ (16:ℕ) < Real.exp 1 ^ (16:ℕ) :=
    pow_lt_pow_left₀ h1 (by norm_num) (by norm_num)
  have h5 : (1999999:ℝ) < (2.5:ℝ) ^ (16:ℕ) := by norm_num
  rw [h3]
  exact lt_trans h5 h4

theorem tanhSmoother_lt_tanh_eight : tanhSmoother < Real.tanh 8 := by
  have h16 : (1999999:ℝ) < Real.exp 16 := exp_sixteen_large
  have hpos : (0:ℝ) < Real.exp 16 + 1 := by positivity
  rw [tanh_exp_form]
  have h28 : (2:ℝ) * 8 = 16 := by norm_num
  rw [h28, tanhSmoother]
  rw [lt_div_iff₀ hpos]
  nlinarith

/-- Claim C4 counterexample.  With original pixel `x = 1/2`, `eps = 1/2` and
global valid range `[0, 1]`, the per-element bounds computed at lines 654-655
are `clip_min = np.clip(x - eps, 0, 1) = 0` and
`clip_max = np.clip(x + eps, 0, 1) = 1`, so the claimed box is `[0, 1]`.
Yet the tanh-space point `u = 8` (reachable, since committed tanh coordinates
are `x_batch_tanh + Σ lr·perturbation` with the perturbation supplied by the
unconstrained external gradient oracle) is mapped by `_tanh_to_original`
(lines 762-766) strictly above the upper bound `1`: the division by
`_tanh_smoother < 1` lets candidates overshoot the box. -/
theorem box_containment_fails :
    npClip (1/2 - 1/2) 0 1 = 0 ∧ npClip (1/2 + 1/2) 0 1 = 1 ∧
      1 < tanhToOriginal 8 (npClip (1/2 - 1/2) 0 1) (npClip (1/2 + 1/2) 0 1) := by
  have hclo : npClip (1/2 - 1/2) 0 1 = (0:ℝ) := by norm_num [npClip]
  have hchi : npClip (1/2 + 1/2) 0 1 = (1:ℝ) := by norm_num [npClip]
  refine ⟨hclo, hchi, ?_⟩
  rw [hclo, hchi, tanhToOriginal]
  have ht : tanhSmoother < Real.tanh 8 := tanhSmoother_lt_tanh_eight
  have hs0 : (0:ℝ) < tanhSmoother := by norm_num [tanhSmoother]
  have hdiv : 1 < Real.tanh 8 / tanhSmoother := (one_lt_div hs0).mpr ht
  nlinarith

/-- Claim C4 amended (proved).  Every value `_tanh_to_original` can produce with
per-element bounds `clipMin < clipMax` lies strictly inside the box enlarged
on each side by `(1/s - 1)/2 * (clipMax - clipMin)` where `s = 0.999999` is
the tanh smoother — an overshoot of at most `(1/s-1)/2 ≈ 5·10⁻⁷` of the box
width beyond `[clipMin, clipMax]`.  Exact containment in
`[clipMin, clipMax]` (the claim as stated) fails, by `box_containment_fails`. -/
theorem tanhToOriginal_in_enlarged_box (u clipMin clipMax : ℝ) (h : clipMin < clipMax) :
    clipMin - (1 / tanhSmoother - 1) / 2 * (clipMax - clipMin) < tanhToOriginal u clipMin clipMax ∧
      tanhToOriginal u clipMin clipMax
        < clipMax + (1 / tanhSmoother - 1) / 2 * (clipMax - clipMin) := by
  have hs0 : (0:ℝ) < tanhSmoother := by norm_num [tanhSmoother]
  have hwid : (0:ℝ) < clipMax - clipMin := by linarith
  have htlo : -1 < Real.tanh u := neg_one_lt_tanh u
  have hthi : Real.tanh u < 1 := tanh_lt_one u
  constructor
  · rw [tanhToOriginal]
    have h1 : (-1:ℝ) / tanhSmoother < Real.tanh u / tanhSmoother :=
      div_lt_div_of_pos_right htlo hs0
    have hab : (0:ℝ) < Real.tanh u / tanhSmoother + 1 / tanhSmoother := by
      rw [neg_div] at h1; linarith
    nlinarith [mul_pos hwid hab]
  · rw [tanhToOriginal]
    have h2 : Real.tanh u / tanhSmoother < 1 / tanhSmoother :=
      div_lt_div_of_pos_right hthi hs0
    have hba : (0:ℝ) < 1 / tanhSmoother - Real.tanh u / tanhSmoother := by linarith
    nlinarith [mul_pos hwid hba]

/-- Witness for `tanhToOriginal_in_enlarged_box`: box `[0, 1]`, point `u = 0`. -/
theorem tanhToOriginal_in_enlarged_box_witness :
    (0:ℝ) < 1 ∧
      ((0:ℝ) - (1 / tanhSmoother - 1) / 2 * (1 - 0) < tanhToOriginal 0 0 1 ∧
        tanhToOriginal 0 0 1 < 1 + (1 / tanhSmoother - 1) / 2 * (1 - 0)) :=
  ⟨by norm_num, tanhToOriginal_in_enlarged_box 0 0 1 (by norm_num)⟩

/-! Margin loss (`CarliniL2Method._loss`, lines 111-129;
`CarliniLInfMethod._loss`, lines 535-546)

Logits are a vector `z : Fin n → ℚ`, the target a one-hot vector for class
`t`.  The code computes `z_target = np.sum(z * target)` and
`z_other = np.max(z * (1 - target) + (np.min(z) - 1) * target)`, then the
hinge `np.maximum(z_other - z_target + confidence, 0)` (targeted) or
`np.maximum(z_target - z_other + confidence, 0)` (untargeted).  Both classes
share this formula verbatim. -/

def oneHot (n : ℕ) (t : Fin n) : Fin n → ℚ := fun j => if j = t then 1 else 0

def zTarget (n : ℕ) (z : Fin n → ℚ) (t : Fin n) : ℚ := ∑ j, z j * oneHot n t j

def zMin (n : ℕ) (z : Fin (n+1) → ℚ) : ℚ := Finset.univ.inf' ⟨0, Finset.mem_univ 0⟩ z

def zOther (n : ℕ) (z : Fin (n+1) → ℚ) (t : Fin (n+1)) : ℚ :=
  Finset.univ.sup' ⟨0, Finset.mem_univ 0⟩
    (fun j => z j * (1 - oneHot (n+1) t j) + (zMin n z - 1) * oneHot (n+1) t j)

def marginLoss (targeted : Bool) (confidence : ℚ) (n : ℕ)
    (z : Fin (n+1) → ℚ) (t : Fin (n+1)) : ℚ :=
  if targeted then max (zOther n z t - zTarget (n+1) z t + confidence) 0
  else max (zTarget (n+1) z t - zOther n z t + confidence) 0

theorem erase_nonempty (n : ℕ) (t : Fin (n+2)) : (Finset.univ.erase t).Nonempty := by
  obtain ⟨j, hj⟩ := exists_ne t
  exact ⟨j, Finset.mem_erase.2 ⟨hj, Finset.mem_univ j⟩⟩

/-- The maximum logit over the non-target classes, as the spec phrases it. -/
def zOtherTrue (n : ℕ) (z : Fin (n+2) → ℚ) (t : Fin (n+2)) : ℚ :=
  (Finset.univ.erase t).sup' (erase_nonempty n t) z

theorem zTarget_eq (n : ℕ) (z : Fin n → ℚ) (t : Fin n) : zTarget n z t = z t := by
  simp [zTarget, oneHot, mul_ite, mul_one, mul_zero]

/-- The masked-max trick of `_loss` computes exactly the maximum logit over
the non-target classes (for at least two classes): the target entry is
replaced by `min z - 1`, which is strictly below every entry. -/
theorem zOther_eq_max_nontarget (n : ℕ) (z : Fin (n+2) → ℚ) (t : Fin (n+2)) :
    zOther (n+1) z t = zOtherTrue n z t := by
  apply le_antisymm
  · apply Finset.sup'_le
    intro j _
    by_cases hjt : j = t
    · obtain ⟨k, hk⟩ := erase_nonempty n t
      have h1 : zMin (n+1) z ≤ z k := Finset.inf'_le z (Finset.mem_univ k)
      have h2 : z k ≤ zOtherTrue n z t := Finset.le_sup' z hk
      rw [hjt]
      simp [oneHot]
      linarith
    · have h2 : z j ≤ zOtherTrue n z t :=
        Finset.le_sup' z (Finset.mem_erase.2 ⟨hjt, Finset.mem_univ j⟩)
      simp only [oneHot, if_neg hjt]
      linarith
  · apply Finset.sup'_le
    intro j hj
    have hjt : j ≠ t := (Finset.mem_erase.1 hj).1
    have : z j = z j * (1 - oneHot (n+2) t j) + (zMin (n+1) z - 1) * oneHot (n+2) t j := by
      simp [oneHot, if_neg hjt]
    rw [this]
    exact Finset.le_sup'
      (fun j => z j * (1 - oneHot (n+2) t j) + (zMin (n+1) z - 1) * oneHot (n+2) t j)
      (Finset.mem_univ j)

/-- Claim C8 (confirmed).  For every batch of logits (at least two classes) and
one-hot target, the margin loss of `_loss` is nonnegative, and it is zero
exactly when the success condition of the current mode holds: targeted
`z_other - z_target + confidence ≤ 0`, untargeted
`z_target - z_other + confidence ≤ 0`, with `z_other` the maximum logit over
the non-target classes. -/
theorem marginLoss_nonneg_iff_success (tg : Bool) (conf : ℚ) (n : ℕ)
    (z : Fin (n+2) → ℚ) (t : Fin (n+2)) :
    0 ≤ marginLoss tg conf (n+1) z t ∧
      (marginLoss tg conf (n+1) z t = 0 ↔
        (if tg then zOtherTrue n z t - z t + conf ≤ 0
         else z t - zOtherTrue n z t + conf ≤ 0)) := by
  cases tg <;>
    simp only [marginLoss, if_true, if_false, Bool.false_eq_true, zTarget_eq,
      zOther_eq_max_nontarget] <;>
    exact ⟨le_max_right _ _, max_eq_right_iff⟩

/-! Binary search over the trade-off constant `c`
(`CarliniL2Method.generate`, initialisation lines 256-258, update lines
402-408)

Each sample's triple `(c, c_lower_bound, c_double)` evolves independently
under the masked updates, so the update is embedded per sample. -/

structure CState where
  c : ℚ
  cLowerBound : ℚ
  cDouble : Bool
  deriving DecidableEq

/-- The per-sample constant update after one binary-search round (lines
402-408), transcribed with numpy semantics.  Note that line 405 `c_old = c`
binds `c_old` to the *same* numpy array as `c` (plain assignment, no
`.copy()`), so after the in-place updates of lines 406-407 the assignment
`c_lower_bound[~overall_attack_success] = c_old[~overall_attack_success]`
at line 408 reads the *already-updated* value of `c`. -/
def cRoundUpdate (overallAttackSuccess : Bool) (s : CState) : CState :=
  if overallAttackSuccess then
    { c := (s.cLowerBound + s.c) / 2, cLowerBound := s.cLowerBound, cDouble := false }
  else
    let cNew := if s.cDouble then s.c * 2 else s.c + (s.c - s.cLowerBound) / 2
    { c := cNew, cLowerBound := cNew, cDouble := s.cDouble }

/-- The same update as the spec (section 4.4) and claim C1 describe it:
for unsuccessful samples, `c_lower` is raised to the value `c` held before
this round's update was applied ("the old `c`"). -/
def cRoundUpdateSpec (overallAttackSuccess : Bool) (s : CState) : CState :=
  if overallAttackSuccess then
    { c := (s.cLowerBound + s.c) / 2, cLowerBound := s.cLowerBound, cDouble := false }
  else
    let cNew := if s.cDouble then s.c * 2 else s.c + (s.c - s.cLowerBound) / 2
    { c := cNew, cLowerBound := s.c, cDouble := s.cDouble }

/-- Initial binary-search state per sample (lines 256-258):
`c = initial_const`, `c_lower_bound = 0`, `c_double = True`. -/
def cInit (initialConst : ℚ) : CState :=
  { c := initialConst, cLowerBound := 0, cDouble := true }

def cRun (initialConst : ℚ) (rounds : List Bool) : CState :=
  rounds.foldl (fun s b => cRoundUpdate b s) (cInit initialConst)

/-- Claim C1 (code bug).  Failing input: a sample with `c = 1`,
`c_lower_bound = 0`, still in doubling phase, whose round produced no
successful iterate.  The code doubles `c` to `2` as claimed, but then sets
`c_lower_bound` to the *new* `c = 2` instead of the old `c = 1`, because
`c_old = c` (line 405) aliases the array rather than copying it.  The spec's
intended update (`cRoundUpdateSpec`) yields `c_lower_bound = 1`.  As a
consequence the bracket degenerates (`c_lower_bound = c`), and once a later
round succeeds, `c = (c_lower_bound + c)/2` leaves `c` unchanged forever:
the binary search the code documents can no longer narrow. -/
theorem cRoundUpdate_alias_bug :
    cRoundUpdate false (cInit 1) = ⟨2, 2, true⟩ ∧
      (cRoundUpdate false (cInit 1)).cLowerBound ≠ (cInit 1).c ∧
      cRoundUpdateSpec false (cInit 1) = ⟨2, 1, true⟩ ∧
      (cRoundUpdate true (cRoundUpdate false (cInit 1))).c
        = (cRoundUpdate false (cInit 1)).c := by
  refine ⟨?_, ?_, ?_, ?_⟩ <;> norm_num [cRoundUpdate, cRoundUpdateSpec, cInit]

theorem cRoundUpdate_invariant (b : Bool) (s : CState)
    (h0 : 0 ≤ s.cLowerBound) (h1 : s.cLowerBound ≤ s.c) :
    0 ≤ (cRoundUpdate b s).cLowerBound ∧
      (cRoundUpdate b s).cLowerBound ≤ (cRoundUpdate b s).c ∧
      s.cLowerBound ≤ (cRoundUpdate b s).cLowerBound := by
  cases b
  · by_cases hd : s.cDouble = true <;>
      simp [cRoundUpdate, hd] <;> constructor <;> linarith
  · simp [cRoundUpdate]
    constructor <;> linarith

theorem cFold_invariant (rounds : List Bool) (s : CState)
    (h0 : 0 ≤ s.cLowerBound) (h1 : s.cLowerBound ≤ s.c) :
    0 ≤ (rounds.foldl (fun s b => cRoundUpdate b s) s).cLowerBound ∧
      (rounds.foldl (fun s b => cRoundUpdate b s) s).cLowerBound
        ≤ (rounds.foldl (fun s b => cRoundUpdate b s) s).c ∧
      s.cLowerBound ≤ (rounds.foldl (fun s b => cRoundUpdate b s) s).cLowerBound := by
  induction rounds generalizing s with
  | nil => exact ⟨h0, h1, le_refl _⟩
  | cons b bs ih =>
    obtain ⟨ha, hb, hc⟩ := cRoundUpdate_invariant b s h0 h1
    obtain ⟨hd, he, hf⟩ := ih (cRoundUpdate b s) ha hb
    exact ⟨hd, he, le_trans hc hf⟩

/-- Claim C2 (confirmed).  Starting from the initial state
(`c = initial_const ≥ 0`, `c_lower_bound = 0`, doubling phase), after every
sequence of update rounds (each round reporting whether the sample ever had a
successful iterate) the bracket invariant `c_lower_bound ≤ c` holds, and one
further round never decreases `c_lower_bound`.  This holds for the code as
written (aliasing included). -/
theorem cRun_bracket_invariant (initialConst : ℚ) (h : 0 ≤ initialConst)
    (rounds : List Bool) (b : Bool) :
    (cRun initialConst rounds).cLowerBound ≤ (cRun initialConst rounds).c ∧
      (cRun initialConst rounds).cLowerBound
        ≤ (cRun initialConst (rounds ++ [b])).cLowerBound := by
  have hinv := cFold_invariant rounds (cInit initialConst) (le_refl 0) h
  have hstep := cRoundUpdate_invariant b (cRun initialConst rounds) hinv.1 hinv.2.1
  have happ : cRun initialConst (rounds ++ [b]) = cRoundUpdate b (cRun initialConst rounds) := by
    rw [cRun, List.foldl_append]
    rfl
  rw [happ]
  exact ⟨hinv.2.1, hstep.2.2⟩

/-- Witness for `cRun_bracket_invariant`: `initial_const = 1`, one failed
round followed by one successful round. -/
theorem cRun_bracket_invariant_witness :
    (0:ℚ) ≤ 1 ∧
      ((cRun 1 [false]).cLowerBound ≤ (cRun 1 [false]).c ∧
        (cRun 1 [false]).cLowerBound ≤ (cRun 1 ([false] ++ [true])).cLowerBound) :=
  ⟨by norm_num, cRun_bracket_invariant 1 (by norm_num) [false] true⟩

/-! Adaptive line search.

Both classes run the same halving/doubling line search once per inner
iteration (`CarliniL2Method.generate` lines 307-372,
`CarliniLInfMethod.generate` lines 686-750).  The candidate at step size
`lr` is `x_adv_batch_tanh + lr * perturbation_tanh` pushed through
`_tanh_to_original` and `_loss`; with a deterministic classifier oracle the
candidate loss is a function `L` of the step size alone (the base point and
direction are fixed for the duration of one search).  The L2 variant also
overwrites the per-sample `l2dist` entry at every candidate evaluation
(line 330), so its engine threads the pair `(l2dist, loss)` through an
evaluation function `E`; the L∞ engine threads only the loss.

Per-sample semantics of the masked loops: a sample is updated by a halving
iteration exactly while its own `do_halving` flag holds (the flag is
monotone: once false its loss is no longer written), and similarly for
doubling, so the vectorized loops project to the per-sample loops below. -/

structure LSState where
  lr : ℚ
  loss : ℚ
  bestLoss : ℚ
  bestLr : ℚ
  halving : ℕ
  deriving DecidableEq

/-- Halving phase (lines 314-341 / 693-720): while the current loss has not
improved on `prev_loss`, evaluate the candidate at the current rate, record
it if it beats the best loss so far, then halve the rate. -/
def halvingLoop (L : ℚ → ℚ) (prevLoss : ℚ) : ℕ → LSState → LSState
  | 0, s => s
  | fuel + 1, s =>
    if prevLoss ≤ s.loss then
      let newLoss := L s.lr
      halvingLoop L prevLoss fuel
        { lr := s.lr / 2
          loss := newLoss
          bestLoss := if newLoss < s.bestLoss then newLoss else s.bestLoss
          bestLr := if newLoss < s.bestLoss then s.lr else s.bestLr
          halving := s.halving + 1 }
    else s

/-- Doubling phase (lines 346-370 / 725-748): while the halving count is
exactly 1 and the loss is still at-or-below the best, double the rate and
evaluate again. -/
def doublingLoop (L : ℚ → ℚ) : ℕ → LSState → LSState
  | 0, s => s
  | fuel + 1, s =>
    if s.halving = 1 ∧ s.loss ≤ s.bestLoss then
      let lrNew := s.lr * 2
      let newLoss := L lrNew
      doublingLoop L fuel
        { lr := lrNew
          loss := newLoss
          bestLoss := if newLoss < s.bestLoss then newLoss else s.bestLoss
          bestLr := if newLoss < s.bestLoss then lrNew else s.bestLr
          halving := s.halving }
    else s

/-- Baseline step `lr[active] *= 2` between the two phases (line 342 / line 721). -/
def lsBaseline (s : LSState) : LSState := { s with lr := s.lr * 2 }

/-- Correction step `lr[halving == 1] /= 2` after the doubling phase (line 372 / line 750). -/
def lsCorrection (s : LSState) : LSState :=
  if s.halving = 1 then { s with lr := s.lr / 2 } else s

/-- One full line search of the L∞ variant for an active sample:
initialisation (lines 688-691), halving, the `lr[active] *= 2` baseline
(line 721), doubling, and the final `lr[halving == 1] /= 2` correction
(line 750). -/
def lineSearch (L : ℚ → ℚ) (lr0 loss0 : ℚ) (maxHalving maxDoubling : ℕ) : LSState :=
  lsCorrection (doublingLoop L maxDoubling
    (lsBaseline (halvingLoop L loss0 maxHalving ⟨lr0, loss0, loss0, 0, 0⟩)))

structure LS2State where
  lr : ℚ
  l2 : ℚ
  loss : ℚ
  bestLoss : ℚ
  bestLr : ℚ
  halving : ℕ
  deriving DecidableEq

/-- L2-variant halving phase (lines 314-341): candidate evaluation writes
both `l2dist` and `loss` (line 330), whether or not the step is kept. -/
def halvingLoop2 (E : ℚ → ℚ × ℚ) (prevLoss : ℚ) : ℕ → LS2State → LS2State
  | 0, s => s
  | fuel + 1, s =>
    if prevLoss ≤ s.loss then
      let r := E s.lr
      halvingLoop2 E prevLoss fuel
        { lr := s.lr / 2
          l2 := r.1
          loss := r.2
          bestLoss := if r.2 < s.bestLoss then r.2 else s.bestLoss
          bestLr := if r.2 < s.bestLoss then s.lr else s.bestLr
          halving := s.halving + 1 }
    else s

/-- L2-variant doubling phase (lines 346-370). -/
def doublingLoop2 (E : ℚ → ℚ × ℚ) : ℕ → LS2State → LS2State
  | 0, s => s
  | fuel + 1, s =>
    if s.halving = 1 ∧ s.loss ≤ s.bestLoss then
      let lrNew := s.lr * 2
      let r := E lrNew
      doublingLoop2 E fuel
        { lr := lrNew
          l2 := r.1
          loss := r.2
          bestLoss := if r.2 < s.bestLoss then r.2 else s.bestLoss
          bestLr := if r.2 < s.bestLoss then lrNew else s.bestLr
          halving := s.halving }
    else s

def ls2Baseline (s : LS2State) : LS2State := { s with lr := s.lr * 2 }

def ls2Correction (s : LS2State) : LS2State :=
  if s.halving = 1 then { s with lr := s.lr / 2 } else s

/-- One full line search of the L2 variant for an active sample
(lines 309-372). -/
def lineSearch2 (E : ℚ → ℚ × ℚ) (lr0 l2init loss0 : ℚ) (maxHalving maxDoubling : ℕ) : LS2State :=
  ls2Correction (doublingLoop2 E maxDoubling
    (ls2Baseline (halvingLoop2 E loss0 maxHalving ⟨lr0, l2init, loss0, loss0, 0, 0⟩)))

/-- Bookkeeping invariant of the search: either no step was recorded yet
(`best_lr = 0`, `best_loss` still the pre-step loss), or the recorded pair is
coherent (`best_loss` is the oracle loss at `best_lr`) and strictly better
than the pre-step loss. -/
def lsInv (L : ℚ → ℚ) (loss0 : ℚ) (s : LSState) : Prop :=
  (s.bestLr = 0 ∧ s.bestLoss = loss0) ∨ (s.bestLoss = L s.bestLr ∧ s.bestLoss < loss0)

def ls2Inv (E : ℚ → ℚ × ℚ) (loss0 : ℚ) (s : LS2State) : Prop :=
  (s.bestLr = 0 ∧ s.bestLoss = loss0) ∨ (s.bestLoss = (E s.bestLr).2 ∧ s.bestLoss < loss0)

theorem lsInv_bestLoss_le (L : ℚ → ℚ) (loss0 : ℚ) (s : LSState) (h : lsInv L loss0 s) :
    s.bestLoss ≤ loss0 := by
  rcases h with ⟨_, h⟩ | ⟨_, h⟩
  · exact le_of_eq h
  · exact le_of_lt h

theorem halvingLoop_inv (L : ℚ → ℚ) (loss0 prevLoss : ℚ) (fuel : ℕ) (s : LSState)
    (h : lsInv L loss0 s) : lsInv L loss0 (halvingLoop L prevLoss fuel s) := by
  induction fuel generalizing s with
  | zero => exact h
  | succ fuel ih =>
    rw [halvingLoop]
    split
    · apply ih
      by_cases hlt : L s.lr < s.bestLoss
      · right
        have := lsInv_bestLoss_le L loss0 s h
        simp only [if_pos hlt]
        exact ⟨by trivial, by linarith⟩
      · simp only [if_neg hlt]
        rcases h with ⟨h1, h2⟩ | ⟨h1, h2⟩
        · exact Or.inl ⟨h1, h2⟩
        · exact Or.inr ⟨h1, h2⟩
    · exact h

theorem doublingLoop_inv (L : ℚ → ℚ) (loss0 : ℚ) (fuel : ℕ) (s : LSState)
    (h : lsInv L loss0 s) : lsInv L loss0 (doublingLoop L fuel s) := by
  induction fuel generalizing s with
  | zero => exact h
  | succ fuel ih =>
    rw [doublingLoop]
    split
    · apply ih
      by_cases hlt : L (s.lr * 2) < s.bestLoss
      · right
        have := lsInv_bestLoss_le L loss0 s h
        simp only [if_pos hlt]
        exact ⟨by trivial, by linarith⟩
      · simp only [if_neg hlt]
        rcases h with ⟨h1, h2⟩ | ⟨h1, h2⟩
        · exact Or.inl ⟨h1, h2⟩
        · exact Or.inr ⟨h1, h2⟩
    · exact h

theorem lsBaseline_inv (L : ℚ → ℚ) (loss0 : ℚ) (s : LSState) (h : lsInv L loss0 s) :
    lsInv L loss0 (lsBaseline s) := h

theorem lsCorrection_inv (L : ℚ → ℚ) (loss0 : ℚ) (s : LSState) (h : lsInv L loss0 s) :
    lsInv L loss0 (lsCorrection s) := by
  rw [lsCorrection]
  split
  · exact h
  · exact h

theorem lineSearch_inv (L : ℚ → ℚ) (lr0 loss0 : ℚ) (maxH maxD : ℕ) :
    lsInv L loss0 (lineSearch L lr0 loss0 maxH maxD) := by
  apply lsCorrection_inv
  apply doublingLoop_inv
  apply lsBaseline_inv
  apply halvingLoop_inv
  exact Or.inl ⟨rfl, rfl⟩

theorem ls2Inv_bestLoss_le (E : ℚ → ℚ × ℚ) (loss0 : ℚ) (s : LS2State)
    (h : ls2Inv E loss0 s) : s.bestLoss ≤ loss0 := by
  rcases h with ⟨_, h⟩ | ⟨_, h⟩
  · exact le_of_eq h
  · exact le_of_lt h

theorem halvingLoop2_inv (E : ℚ → ℚ × ℚ) (loss0 prevLoss : ℚ) (fuel : ℕ) (s : LS2State)
    (h : ls2Inv E loss0 s) : ls2Inv E loss0 (halvingLoop2 E prevLoss fuel s) := by
  induction fuel generalizing s with
  | zero => exact h
  | succ fuel ih =>
    rw [halvingLoop2]
    split
    · apply ih
      by_cases hlt : (E s.lr).2 < s.bestLoss
      · right
        have := ls2Inv_bestLoss_le E loss0 s h
        simp only [if_pos hlt]
        exact ⟨by trivial, by linarith⟩
      · simp only [if_neg hlt]
        rcases h with ⟨h1, h2⟩ | ⟨h1, h2⟩
        · exact Or.inl ⟨h1, h2⟩
        · exact Or.inr ⟨h1, h2⟩
    · exact h

theorem doublingLoop2_inv (E : ℚ → ℚ × ℚ) (loss0 : ℚ) (fuel : ℕ) (s : LS2State)
    (h : ls2Inv E loss0 s) : ls2Inv E loss0 (doublingLoop2 E fuel s) := by
  induction fuel generalizing s with
  | zero => exact h
  | succ fuel ih =>
    rw [doublingLoop2]
    split
    · apply ih
      by_cases hlt : (E (s.lr * 2)).2 < s.bestLoss
      · right
        have := ls2Inv_bestLoss_le E loss0 s h
        simp only [if_pos hlt]
        exact ⟨by trivial, by linarith⟩
      · simp only [if_neg hlt]
        rcases h with ⟨h1, h2⟩ | ⟨h1, h2⟩
        · exact Or.inl ⟨h1, h2⟩
        · exact Or.inr ⟨h1, h2⟩
    · exact h

theorem ls2Baseline_inv (E : ℚ → ℚ × ℚ) (loss0 : ℚ) (s : LS2State) (h : ls2Inv E loss0 s) :
    ls2Inv E loss0 (ls2Baseline s) := h

theorem ls2Correction_inv (E : ℚ → ℚ × ℚ) (loss0 : ℚ) (s : LS2State) (h : ls2Inv E loss0 s) :
    ls2Inv E loss0 (ls2Correction s) := by
  rw [ls2Correction]
  split
  · exact h
  · exact h

theorem lineSearch2_inv (E : ℚ → ℚ × ℚ) (lr0 l2init loss0 : ℚ) (maxH maxD : ℕ) :
    ls2Inv E loss0 (lineSearch2 E lr0 l2init loss0 maxH maxD) := by
  apply ls2Correction_inv
  apply doublingLoop2_inv
  apply ls2Baseline_inv
  apply halvingLoop2_inv
  exact Or.inl ⟨rfl, rfl⟩

/-- Claim C3 (confirmed).  Within one inner optimization loop of either
variant, consider a sample whose candidate step is committed by the line
search (`best_lr > 0`, lines 374/752).  The commit re-evaluates the loss at
the committed point `x_adv_batch_tanh + best_lr * perturbation_tanh`
(lines 384-390 / 762-768); with a deterministic oracle this is `L best_lr`
(resp. the loss component of `E best_lr`).  That recomputed loss never
exceeds the sample's loss before the step (`prev_loss = loss0`).  Any
recorded `best_lr` differs from the initial `0`, so by the bookkeeping
invariant its recorded loss is coherent and strictly below `loss0`. -/
theorem lineSearch_commit_never_increases_loss
    (L : ℚ → ℚ) (E : ℚ → ℚ × ℚ) (lr0 loss0 lr2 l2init loss2 : ℚ)
    (maxH maxD maxH2 maxD2 : ℕ)
    (hInf : 0 < (lineSearch L lr0 loss0 maxH maxD).bestLr)
    (hL2 : 0 < (lineSearch2 E lr2 l2init loss2 maxH2 maxD2).bestLr) :
    L (lineSearch L lr0 loss0 maxH maxD).bestLr ≤ loss0 ∧
      (E (lineSearch2 E lr2 l2init loss2 maxH2 maxD2).bestLr).2 ≤ loss2 := by
  constructor
  · rcases lineSearch_inv L lr0 loss0 maxH maxD with ⟨h1, _⟩ | ⟨h1, h2⟩
    · exact absurd h1 (ne_of_gt hInf)
    · rw [← h1]; exact le_of_lt h2
  · rcases lineSearch2_inv E lr2 l2init loss2 maxH2 maxD2 with ⟨h1, _⟩ | ⟨h1, h2⟩
    · exact absurd h1 (ne_of_gt hL2)
    · rw [← h1]; exact le_of_lt h2

/-- Witness for `lineSearch_commit_never_increases_loss`: the affine oracle
`L lr = 10 - lr` commits a positive step from `lr0 = 1`, `loss0 = 10` with
one halving and one doubling round, in both engines. -/
theorem lineSearch_commit_never_increases_loss_witness :
    (0 < (lineSearch (fun lr => 10 - lr) 1 10 1 1).bestLr ∧
      0 < (lineSearch2 (fun lr => ((1:ℚ), 10 - lr)) 1 0 10 1 1).bestLr) ∧
      ((fun lr => (10:ℚ) - lr) (lineSearch (fun lr => 10 - lr) 1 10 1 1).bestLr ≤ 10 ∧
        ((fun lr => ((1:ℚ), (10:ℚ) - lr))
          (lineSearch2 (fun lr => ((1:ℚ), 10 - lr)) 1 0 10 1 1).bestLr).2 ≤ 10) := by
  have hInf : 0 < (lineSearch (fun lr => 10 - lr) 1 10 1 1).bestLr := by
    norm_num [lineSearch, halvingLoop, doublingLoop, lsBaseline, lsCorrection]
  have hL2 : 0 < (lineSearch2 (fun lr => ((1:ℚ), 10 - lr)) 1 0 10 1 1).bestLr := by
    norm_num [lineSearch2, halvingLoop2, doublingLoop2, ls2Baseline, ls2Correction]
  exact ⟨⟨hInf, hL2⟩,
    lineSearch_commit_never_increases_loss (fun lr => 10 - lr)
      (fun lr => ((1:ℚ), 10 - lr)) 1 10 1 0 10 1 1 1 1 hInf hL2⟩

/-! Per-sample L2 optimization driver (`CarliniL2Method.generate`,
lines 242-410)

The sample is one-dimensional (the loss flattens all feature dimensions into
a scalar squared distance anyway).  The external pieces are parameters:
`toOrig` stands for `_tanh_to_original` (a fixed real function; any monotone
surrogate represents it faithfully at the bookkeeping level), `margin` for
the classifier-dependent hinge term of `_loss` (line 124/127), and the
per-iteration gradient direction `perturbation_tanh` is an input list, since
it comes from the external `_class_gradient` oracle.  The objective is
`loss = c * margin + l2dist` (line 129) and `attack_success` is the literal
`loss - l2dist <= 0` of lines 277/391. -/

def cUpperBound : ℚ := 100000000000

def npClipQ (a lo hi : ℚ) : ℚ := min (max a lo) hi

structure L2Params where
  x : ℚ
  ut0 : ℚ
  toOrig : ℚ → ℚ
  margin : ℚ → ℚ
  lr0 : ℚ
  maxHalving : ℕ
  maxDoubling : ℕ

structure L2State where
  xadvTanh : ℚ
  xadv : ℚ
  l2dist : ℚ
  loss : ℚ
  attackSuccess : Bool
  overallAttackSuccess : Bool
  lr : ℚ
  bestL2dist : Option ℚ
  bestXAdv : ℚ

/-- Improvement test `l2dist < best_l2dist`, where `best_l2dist` starts at `np.inf`
(line 261), modelled by `none`. -/
def isImproved (l2 : ℚ) : Option ℚ → Bool
  | none => true
  | some b => decide (l2 < b)

/-- Best-result bookkeeping (lines 288-292, identically lines 395-400):
a sample that is flagged attack-successful and improves on its best distance
has the *current* `l2dist` and `x_adv_batch` entries recorded. -/
def recordBest (s : L2State) : L2State :=
  if s.attackSuccess && isImproved s.l2dist s.bestL2dist then
    { s with bestL2dist := some s.l2dist, bestXAdv := s.xadv }
  else s

/-- Candidate evaluation of the line search (lines 327-332): the candidate at
step `lr` from tanh-space base point `ut` along direction `p`, its squared
distance to the original, and the full objective. -/
def l2CandEval (P : L2Params) (c ut p lr : ℚ) : ℚ × ℚ :=
  ((P.x - P.toOrig (ut + lr * p))^2,
    c * P.margin (P.toOrig (ut + lr * p)) + (P.x - P.toOrig (ut + lr * p))^2)

/-- One inner-loop iteration (lines 280-392) for one sample: best-result
recording, the `active` gate (`c < _c_upper_bound and lr > 0`, line 294),
the line search, and the final commit when `best_lr > 0` (lines 374-392).
When the sample commits, `loss`, `l2dist` and `attack_success` are
recomputed at the committed point and `overall_attack_success` is or-ed;
when it does not commit, `loss` and `l2dist` keep the values written by the
last line-search candidate evaluation while `attack_success` keeps its old
value (line 391 runs only in the commit branch). -/
def l2Iteration (P : L2Params) (c : ℚ) (s : L2State) (p : ℚ) : L2State :=
  let s := recordBest s
  if c < cUpperBound ∧ 0 < s.lr then
    let ls := lineSearch2 (l2CandEval P c s.xadvTanh p) s.lr s.l2dist s.loss
      P.maxHalving P.maxDoubling
    if 0 < ls.bestLr then
      let utNew := s.xadvTanh + ls.bestLr * p
      let l2New := (P.x - P.toOrig utNew)^2
      let lossNew := c * P.margin (P.toOrig utNew) + l2New
      { xadvTanh := utNew
        xadv := P.toOrig utNew
        l2dist := l2New
        loss := lossNew
        attackSuccess := decide (lossNew - l2New ≤ 0)
        overallAttackSuccess := s.overallAttackSuccess || decide (lossNew - l2New ≤ 0)
        lr := ls.lr
        bestL2dist := s.bestL2dist
        bestXAdv := s.bestXAdv }
    else
      { s with l2dist := ls.l2, loss := ls.loss, lr := ls.lr }
  else s

/-- Round initialisation (lines 270-278): the adversarial candidate is reset
to the original sample, `lr` to the configured learning rate, the loss is
evaluated at the original point, and both success flags are derived from it. -/
def l2RoundInit (P : L2Params) (c : ℚ) (best : Option ℚ × ℚ) : L2State :=
  { xadvTanh := P.ut0
    xadv := P.x
    l2dist := (P.x - P.x)^2
    loss := c * P.margin P.x + (P.x - P.x)^2
    attackSuccess := decide (c * P.margin P.x + (P.x - P.x)^2 - (P.x - P.x)^2 ≤ 0)
    overallAttackSuccess := decide (c * P.margin P.x + (P.x - P.x)^2 - (P.x - P.x)^2 ≤ 0)
    lr := P.lr0
    bestL2dist := best.1
    bestXAdv := best.2 }

def l2InnerLoop (P : L2Params) (c : ℚ) (ps : List ℚ) (s : L2State) : L2State :=
  ps.foldl (l2Iteration P c) s

/-- One full binary-search round (lines 264-400): round initialisation, the
inner loop over `max_iter` gradient directions, and the post-loop best-result
recording of lines 395-400. -/
def l2Round (P : L2Params) (c : ℚ) (best : Option ℚ × ℚ) (ps : List ℚ) : L2State :=
  recordBest (l2InnerLoop P c ps (l2RoundInit P c best))

/-- The binary-search loop (lines 264-408): each round runs while
`c < _c_upper_bound` (the `nb_active == 0` break of lines 266-269), then
updates the constant state by `cRoundUpdate`. -/
def l2Rounds (P : L2Params) : List (List ℚ) → CState → (Option ℚ × ℚ) → Option ℚ × ℚ
  | [], _, best => best
  | ps :: rest, cs, best =>
    if cs.c < cUpperBound then
      l2Rounds P rest (cRoundUpdate (l2Round P cs.c best ps).overallAttackSuccess cs)
        ((l2Round P cs.c best ps).bestL2dist, (l2Round P cs.c best ps).bestXAdv)
    else best

/-- The per-sample result of `CarliniL2Method.generate`: the best slot starts
as `(np.inf, x_batch.copy())` (lines 261-262, with `x_batch` the unclipped
input cast to the attack dtype) and the final `best_x_adv_batch` is written
back to the output (line 410). -/
def l2Generate (P : L2Params) (initialConst : ℚ) (rounds : List (List ℚ)) : Option ℚ × ℚ :=
  l2Rounds P rounds (cInit initialConst) (none, P.x)

theorem recordBest_of_not_success (s : L2State) (h : s.attackSuccess = false) :
    recordBest s = s := by
  rw [recordBest, h]
  simp

/-- A freshly recomputed success flag is `false` whenever `c * margin > 0`:
the objective minus the distance term is exactly `c * margin`. -/
theorem commit_success_flag (c m l2 : ℚ) (h : 0 < c * m) :
    decide (c * m + l2 - l2 ≤ 0) = false := by
  rw [decide_eq_false_iff_not]
  intro hle
  linarith

theorem l2Iteration_no_success (P : L2Params) (c : ℚ) (hm : ∀ q, 0 < P.margin q)
    (hc : 0 < c) (s : L2State) (h : s.attackSuccess = false) (p : ℚ) :
    (l2Iteration P c s p).attackSuccess = false ∧
      (l2Iteration P c s p).bestL2dist = s.bestL2dist ∧
      (l2Iteration P c s p).bestXAdv = s.bestXAdv := by
  rw [l2Iteration, recordBest_of_not_success s h]
  split
  · dsimp only
    split
    · exact ⟨commit_success_flag c _ _ (mul_pos hc (hm _)), rfl, rfl⟩
    · exact ⟨h, rfl, rfl⟩
  · exact ⟨h, rfl, rfl⟩

theorem l2InnerLoop_no_success (P : L2Params) (c : ℚ) (hm : ∀ q, 0 < P.margin q)
    (hc : 0 < c) (ps : List ℚ) (s : L2State) (h : s.attackSuccess = false) :
    (l2InnerLoop P c ps s).attackSuccess = false ∧
      (l2InnerLoop P c ps s).bestL2dist = s.bestL2dist ∧
      (l2InnerLoop P c ps s).bestXAdv = s.bestXAdv := by
  induction ps generalizing s with
  | nil => exact ⟨h, rfl, rfl⟩
  | cons p ps ih =>
    obtain ⟨h1, h2, h3⟩ := l2Iteration_no_success P c hm hc s h p
    obtain ⟨h4, h5, h6⟩ := ih (l2Iteration P c s p) h1
    exact ⟨h4, h5.trans h2, h6.trans h3⟩

theorem l2Round_no_success (P : L2Params) (c : ℚ) (hm : ∀ q, 0 < P.margin q)
    (hc : 0 < c) (best : Option ℚ × ℚ) (ps : List ℚ) :
    (l2Round P c best ps).bestL2dist = best.1 ∧ (l2Round P c best ps).bestXAdv = best.2 := by
  rw [l2Round]
  have hinit : (l2RoundInit P c best).attackSuccess = false :=
    commit_success_flag c _ _ (mul_pos hc (hm P.x))
  obtain ⟨h1, h2, h3⟩ := l2InnerLoop_no_success P c hm hc ps (l2RoundInit P c best) hinit
  rw [recordBest_of_not_success _ h1]
  exact ⟨h2, h3⟩

theorem cRoundUpdate_pos (b : Bool) (s : CState) (h0 : 0 ≤ s.cLowerBound)
    (h1 : s.cLowerBound ≤ s.c) (h2 : 0 < s.c) : 0 < (cRoundUpdate b s).c := by
  cases b
  · by_cases hd : s.cDouble = true <;> simp [cRoundUpdate, hd] <;> linarith
  · simp [cRoundUpdate]
    linarith

theorem l2Rounds_no_success (P : L2Params) (hm : ∀ q, 0 < P.margin q)
    (rounds : List (List ℚ)) (cs : CState) (best : Option ℚ × ℚ)
    (hcs : 0 ≤ cs.cLowerBound ∧ cs.cLowerBound ≤ cs.c ∧ 0 < cs.c) :
    l2Rounds P rounds cs best = best := by
  induction rounds generalizing cs best with
  | nil => rfl
  | cons ps rest ih =>
    rw [l2Rounds]
    split
    · obtain ⟨hb1, hb2⟩ := l2Round_no_success P cs.c hm hcs.2.2 best ps
      rw [hb1, hb2]
      obtain ⟨i1, i2, _⟩ := cRoundUpdate_invariant _ cs hcs.1 hcs.2.1
      exact ih _ (best.1, best.2)
        ⟨i1, i2, cRoundUpdate_pos _ cs hcs.1 hcs.2.1 hcs.2.2⟩ |>.trans rfl
    · rfl

/-- Claim C6 counterexample.  Original sample `x = 2`, classifier valid range
`[0, 1]`: the claimed fallback is the clipped input
`np.clip(2, 0, 1) = 1`, but `best_x_adv_batch` is initialised to the raw
`x_batch.copy()` (line 262, no clipping anywhere on this path), so a run in
which the sample never succeeds (margin identically `5 > 0`) returns `2`,
not `1`.  The first component `none` certifies that no successful iterate
was ever recorded in this run. -/
theorem l2Generate_fallback_unclipped :
    (l2Generate ⟨2, 2, id, fun _ => 5, 1, 1, 1⟩ 1 [[1]]).1 = none ∧
      (l2Generate ⟨2, 2, id, fun _ => 5, 1, 1, 1⟩ 1 [[1]]).2 = 2 ∧
      npClipQ 2 0 1 = 1 ∧ (2:ℚ) ≠ 1 := by
  refine ⟨?_, ?_, by norm_num [npClipQ], by norm_num⟩ <;>
    norm_num [l2Generate, l2Rounds, l2Round, l2InnerLoop, l2RoundInit, l2Iteration, recordBest,
      isImproved, lineSearch2, halvingLoop2, doublingLoop2, ls2Baseline, ls2Correction,
      l2CandEval, cUpperBound, cInit, cRoundUpdate, List.foldl]

/-- Claim C6 amended (proved).  For a sample for which no successful
adversarial iterate is ever recorded (here: the classifier margin stays
strictly positive throughout, so no iterate can ever be flagged successful),
`CarliniL2Method.generate` returns the *unperturbed input itself* — the raw
`x_batch.copy()` of line 262, with no clipping applied.  (When the input
already lies inside `[clip_min, clip_max]` this coincides with the clipped
input of the original claim; for out-of-range inputs it does not, see
`l2Generate_fallback_unclipped`.)  The `none` component records that the
best slot was never written. -/
theorem l2Generate_no_success_returns_original (P : L2Params) (initialConst : ℚ)
    (rounds : List (List ℚ)) (hm : ∀ q, 0 < P.margin q) (hc : 0 < initialConst) :
    l2Generate P initialConst rounds = (none, P.x) := by
  rw [l2Generate]
  exact l2Rounds_no_success P hm rounds (cInit initialConst) (none, P.x)
    ⟨le_refl 0, hc.le, hc⟩

/-- Witness for `l2Generate_no_success_returns_original`. -/
theorem l2Generate_no_success_returns_original_witness :
    (0:ℚ) < 1 ∧
      l2Generate ⟨2, 2, id, fun _ => 5, 1, 1, 1⟩ 1 [[1]] = (none, 2) :=
  ⟨by norm_num,
    l2Generate_no_success_returns_original ⟨2, 2, id, fun _ => 5, 1, 1, 1⟩ 1 [[1]]
      (fun _ => by norm_num) (by norm_num)⟩

/-- Claim C10 counterexample.  A two-iteration run (one binary-search round,
`x = 0`, `c = 1`, `max_halving = max_doubling = 1`) with the concrete oracle
`margin(0) = 10`, `margin(-1) = 0`, `margin(q) = 5` otherwise and gradient
directions `[-1, 1]`:

* iteration 1 commits the candidate `-1` (adversarial, `l2dist = 1`), so
  `attack_success` becomes true;
* iteration 2 evaluates the non-committed candidate `0` (line 330 overwrites
  `l2dist` with `0` and `loss` with `10`), finds no improving step
  (`best_lr = 0`), so line 391 never runs and `attack_success` keeps its
  stale `true`;
* the post-loop recording (lines 395-400) then stores
  `best_l2dist = 0` together with `best_x_adv = -1`.

The stored distance `0` differs from the actual squared distance
`(x - best_x_adv)^2 = 1` of the stored point, refuting the claim. -/
theorem l2Generate_records_stale_best :
    (l2Generate ⟨0, 0, id, (fun q => if q = 0 then 10 else if q = -1 then 0 else 5), 1, 1, 1⟩
        1 [[-1, 1]]).1 = some 0 ∧
      (l2Generate ⟨0, 0, id, (fun q => if q = 0 then 10 else if q = -1 then 0 else 5), 1, 1, 1⟩
        1 [[-1, 1]]).2 = -1 ∧
      (((0:ℚ) - (-1))^2 = 1) ∧
      (l2Generate ⟨0, 0, id, (fun q => if q = 0 then 10 else if q = -1 then 0 else 5), 1, 1, 1⟩
          1 [[-1, 1]]).1
        ≠ some (((0:ℚ)
            - (l2Generate ⟨0, 0, id, (fun q => if q = 0 then 10 else if q = -1 then 0 else 5),
                1, 1, 1⟩ 1 [[-1, 1]]).2)^2) := by
  refine ⟨?_, ?_, by norm_num, ?_⟩ <;>
    norm_num [l2Generate, l2Rounds, l2Round, l2InnerLoop, l2RoundInit, l2Iteration, recordBest,
      isImproved, lineSearch2, halvingLoop2, doublingLoop2, ls2Baseline, ls2Correction,
      l2CandEval, cUpperBound, cInit, cRoundUpdate, List.foldl]

/-- Claim C10 amended (proved).  The guarantee holds exactly for recordings
made from a *coherent* per-sample state — one whose `l2dist`, `loss` and
`attack_success` entries were last written for the current `x_adv` (as at
round initialisation, lines 276-277, or after a committed update, lines
388-391).  Then a fired recording stores `best_l2dist` equal to the actual
squared distance of the stored `best_x_adv`, and the stored point satisfies
the margin-success condition (`c * margin ≤ 0`).  For samples whose entries
were last written by a non-committed line-search candidate the claim fails
(`l2Generate_records_stale_best`). -/
theorem recordBest_coherent_correct (P : L2Params) (c : ℚ) (s : L2State)
    (h1 : s.l2dist = (P.x - s.xadv)^2)
    (h2 : s.loss = c * P.margin s.xadv + s.l2dist)
    (h3 : s.attackSuccess = decide (s.loss - s.l2dist ≤ 0))
    (h4 : s.attackSuccess = true)
    (h5 : isImproved s.l2dist s.bestL2dist = true) :
    (recordBest s).bestL2dist = some ((P.x - (recordBest s).bestXAdv)^2) ∧
      c * P.margin (recordBest s).bestXAdv ≤ 0 := by
  have hfire : (s.attackSuccess && isImproved s.l2dist s.bestL2dist) = true := by
    rw [h4, h5]
    rfl
  have h6 : s.loss - s.l2dist ≤ 0 := of_decide_eq_true (h3 ▸ h4)
  rw [recordBest, if_pos hfire]
  refine ⟨?_, ?_⟩
  · show some s.l2dist = some ((P.x - s.xadv)^2)
    rw [h1]
  · show c * P.margin s.xadv ≤ 0
    rw [h2] at h6
    linarith

/-- Witness for `recordBest_coherent_correct`: a coherent successful state
(`x = 0`, `x_adv = -1`, zero margin at `-1`, `c = 1`). -/
theorem recordBest_coherent_correct_witness :
    (recordBest ⟨-1, -1, 1, 1, true, true, 1, none, 0⟩).bestL2dist
        = some ((((⟨0, 0, id, fun _ => 0, 1, 1, 1⟩ : L2Params)).x
            - (recordBest ⟨-1, -1, 1, 1, true, true, 1, none, 0⟩).bestXAdv)^2) ∧
      (1:ℚ) * (⟨0, 0, id, fun _ => 0, 1, 1, 1⟩ : L2Params).margin
          (recordBest ⟨-1, -1, 1, 1, true, true, 1, none, 0⟩).bestXAdv ≤ 0 :=
  recordBest_coherent_correct ⟨0, 0, id, fun _ => 0, 1, 1, 1⟩ 1
    ⟨-1, -1, 1, 1, true, true, 1, none, 0⟩
    (by norm_num) (by norm_num) (by norm_num) rfl (by norm_num [isImproved])

/-! Per-sample L-infinity optimization driver (`CarliniLInfMethod.generate`,
lines 617-783)

Same conventions as the L2 driver.  There is no trade-off constant and no
distance term: the loss is the margin alone (lines 524-546).  A sample is
active only while `attack_success` is false (line 677); inactive samples are
never touched again (every update mask is a sub-mask of `active`), and the
final write-back reverts never-successful samples to the original input
(line 772). -/

structure LInfParams where
  x : ℚ
  ut0 : ℚ
  toOrig : ℚ → ℚ
  margin : ℚ → ℚ
  lr0 : ℚ
  maxHalving : ℕ
  maxDoubling : ℕ

structure LInfState where
  xadvTanh : ℚ
  xadv : ℚ
  loss : ℚ
  attackSuccess : Bool
  lr : ℚ

/-- Initialisation (lines 662-668): candidate = original sample, loss
evaluated there, `attack_success = (loss <= 0)`, `lr = learning_rate`. -/
def lInfInit (Q : LInfParams) : LInfState :=
  { xadvTanh := Q.ut0
    xadv := Q.x
    loss := Q.margin Q.x
    attackSuccess := decide (Q.margin Q.x ≤ 0)
    lr := Q.lr0 }

/-- One inner iteration (lines 670-769) for one sample.  An already
successful sample is inactive and unchanged (a global `attack_success`
recomputation triggered by another sample's commit re-evaluates
`loss <= 0` on its unchanged loss, so its flag also stays `true`).  An
active sample runs the line search; on commit (`best_lr > 0`) the state and
success flag are recomputed at the committed point (lines 755-769); without
a commit the `loss` entry keeps the last candidate value written by
line 711 and the success flag is not recomputed (line 769 is inside the
commit branch). -/
def lInfIteration (Q : LInfParams) (s : LInfState) (p : ℚ) : LInfState :=
  if s.attackSuccess then s
  else
    let ls := lineSearch (fun lr => Q.margin (Q.toOrig (s.xadvTanh + lr * p)))
      s.lr s.loss Q.maxHalving Q.maxDoubling
    if 0 < ls.bestLr then
      { xadvTanh := s.xadvTanh + ls.bestLr * p
        xadv := Q.toOrig (s.xadvTanh + ls.bestLr * p)
        loss := Q.margin (Q.toOrig (s.xadvTanh + ls.bestLr * p))
        attackSuccess := decide (Q.margin (Q.toOrig (s.xadvTanh + ls.bestLr * p)) ≤ 0)
        lr := ls.lr }
    else
      { s with loss := ls.loss, lr := ls.lr }

/-- All states visited by the run (the initial state and the state after
each iteration). -/
def lInfStates (Q : LInfParams) : LInfState → List ℚ → List LInfState
  | s, [] => [s]
  | s, p :: ps => s :: lInfStates Q (lInfIteration Q s p) ps

def lInfRun (Q : LInfParams) (ps : List ℚ) : LInfState :=
  ps.foldl (lInfIteration Q) (lInfInit Q)

/-- The returned sample (lines 771-773):
`x_adv_batch[~attack_success] = x_batch[~attack_success]`. -/
def lInfResult (Q : LInfParams) (ps : List ℚ) : ℚ :=
  if (lInfRun Q ps).attackSuccess then (lInfRun Q ps).xadv else Q.x

theorem lInfStates_self_mem (Q : LInfParams) (s : LInfState) (ps : List ℚ) :
    s ∈ lInfStates Q s ps := by
  cases ps <;> simp [lInfStates]

theorem lInfIteration_of_success (Q : LInfParams) (s : LInfState) (p : ℚ)
    (hs : s.attackSuccess = true) : lInfIteration Q s p = s := by
  rw [lInfIteration, if_pos hs]

/-- After an iteration from an unsuccessful state, the success flag is
either still `false` (no commit) or freshly derived from a margin value
that is also the new state's loss (commit). -/
theorem lInfIteration_success_shape (Q : LInfParams) (s : LInfState) (p : ℚ)
    (hs : s.attackSuccess = false) :
    (lInfIteration Q s p).attackSuccess = false ∨
      ∃ q, (lInfIteration Q s p).loss = Q.margin q ∧
        (lInfIteration Q s p).attackSuccess = decide (Q.margin q ≤ 0) := by
  rw [lInfIteration, if_neg (by rw [hs]; exact Bool.false_ne_true)]
  dsimp only
  split
  · exact Or.inr ⟨_, rfl, rfl⟩
  · exact Or.inl hs

theorem lInfIteration_success_false (Q : LInfParams) (hm : ∀ q, 0 ≤ Q.margin q)
    (s : LInfState) (p : ℚ) (hs : s.attackSuccess = false)
    (hnz : (lInfIteration Q s p).loss ≠ 0) :
    (lInfIteration Q s p).attackSuccess = false := by
  rcases lInfIteration_success_shape Q s p hs with h | ⟨q, hq1, hq2⟩
  · exact h
  · rw [hq2, decide_eq_false_iff_not]
    intro hle
    have h0 : Q.margin q = 0 := le_antisymm hle (hm q)
    rw [hq1, h0] at hnz
    exact hnz rfl

theorem lInfFold_success_false (Q : LInfParams) (hm : ∀ q, 0 ≤ Q.margin q)
    (ps : List ℚ) : ∀ (s : LInfState), (∀ t ∈ lInfStates Q s ps, t.loss ≠ 0) →
      s.attackSuccess = false → (ps.foldl (lInfIteration Q) s).attackSuccess = false := by
  induction ps with
  | nil => exact fun s _ hs => hs
  | cons p ps ih =>
    intro s h hs
    rw [List.foldl_cons]
    have hmem : ∀ t ∈ lInfStates Q (lInfIteration Q s p) ps, t.loss ≠ 0 := by
      intro t ht
      exact h t (by rw [lInfStates]; exact List.mem_cons_of_mem s ht)
    have hnz : (lInfIteration Q s p).loss ≠ 0 :=
      hmem (lInfIteration Q s p) (lInfStates_self_mem Q (lInfIteration Q s p) ps)
    exact ih (lInfIteration Q s p) hmem (lInfIteration_success_false Q hm s p hs hnz)

theorem lInfFold_of_success (Q : LInfParams) (ps : List ℚ) (s : LInfState)
    (hs : s.attackSuccess = true) : ps.foldl (lInfIteration Q) s = s := by
  induction ps with
  | nil => rfl
  | cons p ps ih =>
    rw [List.foldl_cons, lInfIteration_of_success Q s p hs, ih]

/-- Claim C7 (confirmed).  Two statements about `CarliniLInfMethod.generate`:
(1) a sample whose margin loss never reaches `0` during the run (no state of
the trajectory carries a zero loss; margin losses are nonnegative, which
`marginLoss_nonneg_iff_success` establishes for the concrete `_loss`) is
returned with exactly its original unperturbed value, by the final
write-back of line 772; (2) a sample already successful at initialisation
(margin at the original point `≤ 0`, e.g. already misclassified under an
untargeted attack) is never touched by the optimization and is returned
equal to the original input. -/
theorem lInfResult_no_success_original (Q : LInfParams) (ps : List ℚ) :
    ((∀ q, 0 ≤ Q.margin q) → (∀ t ∈ lInfStates Q (lInfInit Q) ps, t.loss ≠ 0) →
        lInfResult Q ps = Q.x) ∧
      (Q.margin Q.x ≤ 0 → lInfResult Q ps = Q.x) := by
  constructor
  · intro hm htraj
    have hinit : (lInfInit Q).attackSuccess = false := by
      rw [lInfInit, decide_eq_false_iff_not]
      intro hle
      have h0 : Q.margin Q.x = 0 := le_antisymm hle (hm Q.x)
      have := htraj (lInfInit Q) (lInfStates_self_mem Q (lInfInit Q) ps)
      rw [lInfInit] at this
      exact this h0
    have hrun : (lInfRun Q ps).attackSuccess = false :=
      lInfFold_success_false Q hm ps (lInfInit Q) htraj hinit
    rw [lInfResult, if_neg (by rw [hrun]; exact Bool.false_ne_true)]
  · intro hsucc
    have hinit : (lInfInit Q).attackSuccess = true := by
      rw [lInfInit]
      exact decide_eq_true hsucc
    have hrun : lInfRun Q ps = lInfInit Q := lInfFold_of_success Q ps (lInfInit Q) hinit
    rw [lInfResult, hrun, if_pos hinit]
    rfl

/-- Witness for `lInfResult_no_success_original`: a never-successful run
(margin identically `5`) and an initially-successful run (margin
identically `0`), both on one iteration and both returning the original
sample `0`. -/
theorem lInfResult_no_success_original_witness :
    lInfResult ⟨0, 0, id, fun _ => 5, 1, 1, 1⟩ [1] = 0 ∧
      lInfResult ⟨0, 0, id, fun _ => 0, 1, 1, 1⟩ [1] = 0 :=
  ⟨(lInfResult_no_success_original ⟨0, 0, id, fun _ => 5, 1, 1, 1⟩ [1]).1
      (fun _ => by norm_num)
      (by
        intro t ht
        norm_num [lInfStates, lInfInit, lInfIteration, lineSearch, halvingLoop, doublingLoop,
          lsBaseline, lsCorrection] at ht
        rcases ht with rfl | rfl <;> norm_num),
    (lInfResult_no_success_original ⟨0, 0, id, fun _ => 0, 1, 1, 1⟩ [1]).2 (by norm_num)⟩

/-! Hyperparameter validation (`CarliniL2Method.set_params`, lines
422-466; `CarliniLInfMethod.set_params`, lines 785-825; the targeted-labels
check of `generate`, lines 229-240 / 631-642)

Counts are integers (`isinstance(..., int)` is the typing of the embedding);
errors are `Except.error` with the source's message. -/

structure L2Hyper where
  confidence : ℚ
  targeted : Bool
  learningRate : ℚ
  binarySearchSteps : ℤ
  maxIter : ℤ
  initialConst : ℚ
  maxHalving : ℤ
  maxDoubling : ℤ
  batchSize : ℤ

def setParamsL2 (p : L2Hyper) : Except String L2Hyper :=
  if p.binarySearchSteps < 0 then
    Except.error "The number of binary search steps must be a non-negative integer."
  else if p.maxIter < 0 then
    Except.error "The number of iterations must be a non-negative integer."
  else if p.maxHalving < 1 then
    Except.error "The number of halving steps must be an integer greater than zero."
  else if p.maxDoubling < 1 then
    Except.error "The number of doubling steps must be an integer greater than zero."
  else if p.batchSize < 1 then
    Except.error "The batch size must be an integer greater than zero."
  else Except.ok p

structure LInfHyper where
  confidence : ℚ
  targeted : Bool
  learningRate : ℚ
  maxIter : ℤ
  maxHalving : ℤ
  maxDoubling : ℤ
  eps : ℚ
  batchSize : ℤ

def setParamsLInf (p : LInfHyper) : Except String LInfHyper :=
  if p.eps ≤ 0 then
    Except.error "The eps parameter must be strictly positive."
  else if p.maxIter < 0 then
    Except.error "The number of iterations must be a non-negative integer."
  else if p.maxHalving < 1 then
    Except.error "The number of halving steps must be an integer greater than zero."
  else if p.maxDoubling < 1 then
    Except.error "The number of doubling steps must be an integer greater than zero."
  else if p.batchSize < 1 then
    Except.error "The batch size must be an integer greater than zero."
  else Except.ok p

def isError {α : Type} : Except String α → Bool
  | Except.error _ => true
  | Except.ok _ => false

/-- Entry checks of `CarliniL2Method.generate` (lines 229-240): parameter validation
first (line 232), then the targeted-without-labels check (lines 235-236)
*before* any classifier-oracle call (the first oracle call is the label
inference at line 240 / the loss evaluations inside the loop); once past the
checks, the numeric body is a total function — non-convergence produces a
best-effort result, never an error. -/
def generateL2 (p : L2Hyper) (y : Option (List ℚ)) (P : L2Params)
    (rounds : List (List ℚ)) : Except String (Option ℚ × ℚ) :=
  match setParamsL2 p with
  | Except.error e => Except.error e
  | Except.ok p =>
    if p.targeted = true ∧ y = none then
      Except.error "Target labels y need to be provided for a targeted attack."
    else Except.ok (l2Generate P p.initialConst rounds)

theorem setParamsL2_ok (p p' : L2Hyper) (h : setParamsL2 p = Except.ok p') : p' = p := by
  rw [setParamsL2] at h
  split_ifs at h <;> simp_all

theorem setParamsL2_ok_conditions (p : L2Hyper) (h : isError (setParamsL2 p) = false) :
    ¬p.binarySearchSteps < 0 ∧ ¬p.maxIter < 0 ∧ ¬p.maxHalving < 1 ∧
      ¬p.maxDoubling < 1 ∧ ¬p.batchSize < 1 := by
  rw [setParamsL2] at h
  split_ifs at h with h1 h2 h3 h4 h5
  · simp [isError] at h
  · simp [isError] at h
  · simp [isError] at h
  · simp [isError] at h
  · simp [isError] at h
  · exact ⟨h1, h2, h3, h4, h5⟩

theorem setParamsLInf_ok_conditions (p : LInfHyper) (h : isError (setParamsLInf p) = false) :
    ¬p.eps ≤ 0 ∧ ¬p.maxIter < 0 ∧ ¬p.maxHalving < 1 ∧
      ¬p.maxDoubling < 1 ∧ ¬p.batchSize < 1 := by
  rw [setParamsLInf] at h
  split_ifs at h with h1 h2 h3 h4 h5
  · simp [isError] at h
  · simp [isError] at h
  · simp [isError] at h
  · simp [isError] at h
  · simp [isError] at h
  · exact ⟨h1, h2, h3, h4, h5⟩

/-- Claim C9 (confirmed).  (1) A negative binary-search or iteration count, a
halving/doubling count below 1, or a batch size below 1 makes
`CarliniL2Method.set_params` raise; (2) likewise `CarliniLInfMethod`, with
non-positive `eps` additionally rejected; (3) with valid parameters, a
targeted `generate` call without target labels errors before any oracle
call; (4) with valid parameters and labels present when required, `generate`
returns the numeric result — the numeric body is total, so numerical
non-convergence never raises to the caller. -/
theorem params_validation (p : L2Hyper) (q : LInfHyper) (y : Option (List ℚ))
    (P : L2Params) (rounds : List (List ℚ)) :
    ((p.binarySearchSteps < 0 ∨ p.maxIter < 0 ∨ p.maxHalving < 1 ∨ p.maxDoubling < 1 ∨
        p.batchSize < 1) → isError (setParamsL2 p) = true) ∧
      ((q.eps ≤ 0 ∨ q.maxIter < 0 ∨ q.maxHalving < 1 ∨ q.maxDoubling < 1 ∨
        q.batchSize < 1) → isError (setParamsLInf q) = true) ∧
      (isError (setParamsL2 p) = false → p.targeted = true → y = none →
        generateL2 p y P rounds
          = Except.error "Target labels y need to be provided for a targeted attack.") ∧
      (isError (setParamsL2 p) = false → ¬(p.targeted = true ∧ y = none) →
        generateL2 p y P rounds = Except.ok (l2Generate P p.initialConst rounds)) := by
  refine ⟨?_, ?_, ?_, ?_⟩
  · intro hd
    rcases hb : isError (setParamsL2 p) with _ | _
    · obtain ⟨c1, c2, c3, c4, c5⟩ := setParamsL2_ok_conditions p hb
      rcases hd with h | h | h | h | h <;> [exact absurd h c1; exact absurd h c2;
        exact absurd h c3; exact absurd h c4; exact absurd h c5]
    · rfl
  · intro hd
    rcases hb : isError (setParamsLInf q) with _ | _
    · obtain ⟨c1, c2, c3, c4, c5⟩ := setParamsLInf_ok_conditions q hb
      rcases hd with h | h | h | h | h <;> [exact absurd h c1; exact absurd h c2;
        exact absurd h c3; exact absurd h c4; exact absurd h c5]
    · rfl
  · intro hok htg hy
    cases hmatch : setParamsL2 p with
    | error e => rw [hmatch] at hok; simp [isError] at hok
    | ok p' =>
      have hpp : p' = p := setParamsL2_ok p p' hmatch
      subst hpp
      rw [generateL2, hmatch]
      dsimp only
      rw [if_pos ⟨htg, hy⟩]
  · intro hok hny
    cases hmatch : setParamsL2 p with
    | error e => rw [hmatch] at hok; simp [isError] at hok
    | ok p' =>
      have hpp : p' = p := setParamsL2_ok p p' hmatch
      subst hpp
      rw [generateL2, hmatch]
      dsimp only
      rw [if_neg hny]

/-- Witness for `params_validation`: a bad L2 configuration
(`binary_search_steps = -1`), a bad L∞ configuration (`eps = 0`), a valid
targeted call without labels, and a valid call with labels. -/
theorem params_validation_witness :
    isError (setParamsL2 ⟨0, true, 1/100, -1, 10, 1/100, 5, 5, 128⟩) = true ∧
      isError (setParamsLInf ⟨0, true, 1/100, 10, 5, 5, 0, 128⟩) = true ∧
      generateL2 ⟨0, true, 1/100, 10, 10, 1/100, 5, 5, 128⟩ none
          ⟨0, 0, id, fun _ => 5, 1, 1, 1⟩ []
        = Except.error "Target labels y need to be provided for a targeted attack." ∧
      generateL2 ⟨0, true, 1/100, 10, 10, 1/100, 5, 5, 128⟩ (some [0])
          ⟨0, 0, id, fun _ => 5, 1, 1, 1⟩ []
        = Except.ok (l2Generate ⟨0, 0, id, fun _ => 5, 1, 1, 1⟩ (1/100) []) := by
  have hgood : isError (setParamsL2 ⟨0, true, 1/100, 10, 10, 1/100, 5, 5, 128⟩) = false := by
    norm_num [setParamsL2, isError]
  refine ⟨?_, ?_, ?_, ?_⟩
  · exact (params_validation ⟨0, true, 1/100, -1, 10, 1/100, 5, 5, 128⟩
      ⟨0, true, 1/100, 10, 5, 5, 0, 128⟩ none ⟨0, 0, id, fun _ => 5, 1, 1, 1⟩ []).1
      (Or.inl (by norm_num))
  · exact (params_validation ⟨0, true, 1/100, -1, 10, 1/100, 5, 5, 128⟩
      ⟨0, true, 1/100, 10, 5, 5, 0, 128⟩ none ⟨0, 0, id, fun _ => 5, 1, 1, 1⟩ []).2.1
      (Or.inl (by norm_num))
  · exact (params_validation ⟨0, true, 1/100, 10, 10, 1/100, 5, 5, 128⟩
      ⟨0, true, 1/100, 10, 5, 5, 0, 128⟩ none ⟨0, 0, id, fun _ => 5, 1, 1, 1⟩ []).2.2.1
      hgood rfl rfl
  · exact (params_validation ⟨0, true, 1/100, 10, 10, 1/100, 5, 5, 128⟩
      ⟨0, true, 1/100, 10, 5, 5, 0, 128⟩ (some [0]) ⟨0, 0, id, fun _ => 5, 1, 1, 1⟩ []).2.2.2
      hgood (by simp)

end Carlini
